import Mathlib

/-!
Shallow embedding of the configuration parser and runtime-status merger of
`wgadmin/services/wireguard.py` (class `WireGuardService`), together with
proofs about the claims of the specification.

Conventions of the embedding:
* Python strings are Lean `String`s; all operations are defined over the
  underlying `List Char`, restricted to the ASCII behaviour that the
  configuration format uses (`str.isdigit`, `str.lower`, `int(...)` are
  modelled for ASCII digits/letters).
* the config text and the runtime dump are given post-`splitlines`, as
  `List String` of lines;
* a Python function that may raise returns `Except`; `WireGuardError`
  raised by a collaborator (config read, `wg show` invocation) is the
  `Unit` error of the corresponding input `Except Unit (List String)`;
* `datetime.fromtimestamp(n, tz=utc)` is injective in `n`, so a timestamp
  is represented by its epoch-seconds `Nat`.
-/

namespace WgAdmin

/-! Python string primitives -/

/-- Python whitespace characters recognised by `str.strip()`. -/
def pyIsSpace (c : Char) : Bool :=
  c == ' ' || c == '\t' || c == '\n' || c == '\r' || c == '\x0b' || c == '\x0c'

/-- Python `str.strip()` on the character list. -/
def pyStripList (cs : List Char) : List Char :=
  ((cs.dropWhile pyIsSpace).reverse.dropWhile pyIsSpace).reverse

/-- Python `s.strip()`. -/
def pyStrip (s : String) : String :=
  String.mk (pyStripList s.toList)

/-- Python `s.lstrip("#")`: drop the leading run of `'#'` characters. -/
def pyLstripHash (s : String) : String :=
  String.mk (s.toList.dropWhile (fun c => c == '#'))

/-- Python `s.lower()` (ASCII). -/
def pyLower (s : String) : String :=
  String.mk (s.toList.map Char.toLower)

/-- Python `s.startswith(p)`. -/
def strStartsWith (s p : String) : Bool :=
  p.toList.isPrefixOf s.toList

/-- Python `s.isdigit()` (ASCII digits). -/
def pyIsDigit (s : String) : Bool :=
  !s.toList.isEmpty && s.toList.all (fun c => c.isDigit)

/-- Numeric value of a digit string. -/
def digitsVal (cs : List Char) : Nat :=
  cs.foldl (fun n c => n * 10 + (c.toNat - 48)) 0

/-- Numeric value of a digit string, on `String`. -/
def digitsToNat (s : String) : Nat :=
  digitsVal s.toList

/-- Python `int(s)` for a decimal string: strips surrounding whitespace,
allows one leading sign, then requires a nonempty run of digits;
`none` models the `ValueError` raised otherwise. -/
def pyInt (s : String) : Option Int :=
  match pyStripList s.toList with
  | [] => none
  | '+' :: rest =>
      if !rest.isEmpty && rest.all (fun c => c.isDigit) then
        some ((digitsVal rest : Nat) : Int)
      else none
  | '-' :: rest =>
      if !rest.isEmpty && rest.all (fun c => c.isDigit) then
        some (-((digitsVal rest : Nat) : Int))
      else none
  | cs =>
      if cs.all (fun c => c.isDigit) then some ((digitsVal cs : Nat) : Int)
      else none

/-- Python `s.split(sep)` for a one-character separator (accumulator form). -/
def splitOnCharAux (sep : Char) : List Char → List Char → List String
  | [], acc => [String.mk acc.reverse]
  | c :: rest, acc =>
      if c == sep then String.mk acc.reverse :: splitOnCharAux sep rest []
      else splitOnCharAux sep rest (c :: acc)

/-- Python `s.split(sep)` for a one-character separator. -/
def splitOnChar (s : String) (sep : Char) : List String :=
  splitOnCharAux sep s.toList []

/-- Everything after the first `':'` — Python `s.split(":", 1)[1]`
(used only when a colon is present). -/
def afterFirstColon (s : String) : String :=
  String.mk ((s.toList.dropWhile (fun c => c != ':')).drop 1)

/-- Python `s[:12]`. -/
def pyTake12 (s : String) : String :=
  String.mk (s.toList.take 12)

/-- Python `name or dflt` for an optional string: `None` and `""` are falsy. -/
def orElseStr (o : Option String) (dflt : String) : String :=
  match o with
  | some s => if s = "" then dflt else s
  | none => dflt

/-! Data model: the `WireGuardPeer` dataclass -/

/-- The `WireGuardPeer` dataclass. `latest_handshake` is the epoch-seconds of
the `datetime` value (`none` = Python `None`). -/
structure WireGuardPeer where
  identifier : String
  name : String
  public_key : String
  allowed_ips : List String
  endpoint : Option String := none
  persistent_keepalive : Option Int := none
  latest_handshake : Option Nat := none
  transfer_rx : Option Int := none
  transfer_tx : Option Int := none
  is_enabled : Bool := true
  raw_block : Option (List String) := none
deriving DecidableEq

/-! Config parsing (`_is_peer_header`, `_collect_block`, `_extract_name`,
`_parse_peer_block`, `_parse_config`) -/

/-- The test `WireGuardService._is_peer_header`:
`line.lstrip("#").strip().lower().startswith("[peer]")`. -/
def is_peer_header (line : String) : Bool :=
  strStartsWith (pyLower (pyStrip (pyLstripHash line))) "[peer]"

/-- Loop body of `WireGuardService._collect_block`; the fuel argument only
bounds the iteration count (the loop advances `j` each step, so
`lines.length + 1` fuel is always enough, see `collectBlockAux_fuel`). -/
def collectBlockAux (lines : List String) (s : Nat) : Nat → Nat → List String × Nat
  | 0, j => ([], j)
  | fuel + 1, j =>
      if j < lines.length then
        if j ≠ s && is_peer_header (lines.getD j "") then ([], j)
        else
          let r := collectBlockAux lines s fuel (j + 1)
          (lines.getD j "" :: r.1, r.2)
      else ([], j)

/-- The function `WireGuardService._collect_block lines start_index`: the block lines from
`start_index` up to (excluding) the next peer-header, and the index it ends at. -/
def collect_block (lines : List String) (start_index : Nat) : List String × Nat :=
  collectBlockAux lines start_index (lines.length + 1) start_index

/-- Backward walk of `WireGuardService._extract_name`: the argument `k + 1`
means the scan currently looks at line index `k` (so `0` means the scan has
passed the start of the file, Python's `k >= 0` test failing). -/
def extractNameAux (lines : List String) : Nat → Option String
  | 0 => none
  | k + 1 =>
      let l := pyStrip (lines.getD k "")
      if strStartsWith l "#" then
        let comment := pyStrip (pyLstripHash l)
        if comment ≠ "" then
          if strStartsWith (pyLower comment) "name:" then
            some (pyStrip (afterFirstColon comment))
          else some comment
        else extractNameAux lines k
      else none

/-- The function `WireGuardService._extract_name lines start_index`: walk backward from
`start_index - 1` over comment lines looking for a name. -/
def extract_name (lines : List String) (start_index : Nat) : Option String :=
  extractNameAux lines start_index

/-- Loop body of the dict-building loop of `_parse_peer_block`: strip the
leading run of `'#'` then whitespace, and if the line contains `'='` split on
the first `'='` into stripped key (lowercased) and stripped value. A Python
dict insert is modelled by appending; lookups take the last entry. -/
def blockDataStep (d : List (String × String)) (raw_line : String) :
    List (String × String) :=
  let line := pyStrip (pyLstripHash raw_line)
  if line.toList.contains '=' then
    let key := pyStrip (String.mk (line.toList.takeWhile (fun c => c != '=')))
    let value := pyStrip (String.mk ((line.toList.dropWhile (fun c => c != '=')).drop 1))
    d ++ [(pyLower key, value)]
  else d

/-- The key/value mapping built by `WireGuardService._parse_peer_block`. -/
def blockData (block_lines : List String) : List (String × String) :=
  block_lines.foldl blockDataStep []

/-- Whether the first character of a (raw) line is Python whitespace. -/
def headIsSpace (l : String) : Bool :=
  match l.toList with
  | [] => false
  | c :: _ => pyIsSpace c

/-- Python `dict.get`: the last binding of the key wins. -/
def dictGet (d : List (String × String)) (k : String) : Option String :=
  (d.reverse.find? (fun p => p.1 == k)).map (fun p => p.2)

/-- The function `WireGuardService._parse_peer_block block_lines name`. -/
def parse_peer_block (block_lines : List String) (name : Option String) :
    Option WireGuardPeer :=
  let is_enabled := block_lines.any
    (fun line => (pyStrip line != "") && !(strStartsWith (pyStrip line) "#"))
  let data := blockData block_lines
  match dictGet data "publickey" with
  | none => none
  | some public_key =>
      if public_key = "" then none
      else
        let allowed_ips :=
          ((splitOnChar ((dictGet data "allowedips").getD "") ',').map pyStrip).filter
            (fun s => s ≠ "")
        let persistent_keepalive : Option Int :=
          match dictGet data "persistentkeepalive" with
          | none => none
          | some s => pyInt s
        some {
          identifier := orElseStr name public_key
          name := orElseStr name (pyTake12 public_key)
          public_key := public_key
          allowed_ips := allowed_ips
          endpoint := dictGet data "endpoint"
          persistent_keepalive := persistent_keepalive
          latest_handshake := none
          transfer_rx := none
          transfer_tx := none
          is_enabled := is_enabled
          raw_block := some block_lines }

/-- Main loop of `WireGuardService._parse_config`, cursor `i` over `lines`;
the fuel argument only bounds the iteration count (each iteration advances
the cursor, so `lines.length + 1` fuel is always enough, see
`parseConfigAux_fuel`). -/
def parseConfigAux (lines : List String) : Nat → Nat → List WireGuardPeer
  | 0, _ => []
  | fuel + 1, i =>
      if i < lines.length then
        let line := pyStrip (lines.getD i "")
        if is_peer_header line then
          let name := extract_name lines i
          let bj := collect_block lines i
          match parse_peer_block bj.1 name with
          | some p => p :: parseConfigAux lines fuel bj.2
          | none => parseConfigAux lines fuel bj.2
        else parseConfigAux lines fuel (i + 1)
      else []

/-- The function `WireGuardService._parse_config`, over the config text's lines. -/
def parse_config (lines : List String) : List WireGuardPeer :=
  parseConfigAux lines (lines.length + 1) 0

/-- Parsing resumed at cursor `i` (the state of the `while` loop of
`_parse_config` when `i` has just been set). -/
def parseFrom (lines : List String) (i : Nat) : List WireGuardPeer :=
  parseConfigAux lines (lines.length + 1) i

/-! Runtime status map: `_runtime_peer_map` -/

/-- The entries of the per-peer dict built by `_runtime_peer_map`
(`latest_handshake` again as epoch-seconds). -/
structure RuntimeStatus where
  endpoint : Option String
  allowed_ips : String
  latest_handshake : Option Nat
  transfer_rx : Int
  transfer_tx : Int
  persistent_keepalive : Option Int
deriving DecidableEq

/-- A Python exception escaping `_runtime_peer_map` that is NOT a
`WireGuardError` (the `ValueError` of a bare `int(...)` call). -/
inductive PyError
  | valueError
deriving DecidableEq

/-- Python dict assignment `status[k] = v`, modelled by appending;
lookups take the last entry. -/
def assocSet (d : List (String × RuntimeStatus)) (k : String) (v : RuntimeStatus) :
    List (String × RuntimeStatus) :=
  d ++ [(k, v)]

/-- Python `dict.get` on the runtime map: the last binding of the key wins. -/
def assocGetLast (d : List (String × RuntimeStatus)) (k : String) :
    Option RuntimeStatus :=
  (d.reverse.find? (fun p => p.1 == k)).map (fun p => p.2)

/-- The row loop of `_runtime_peer_map` (`for line in lines[1:]`): rows with
fewer than 9 tab-separated fields are skipped; `int(parts[6])` and
`int(parts[7])` raise `ValueError` when non-numeric. -/
def runtimeRowsAux : List String → List (String × RuntimeStatus) →
    Except PyError (List (String × RuntimeStatus))
  | [], acc => .ok acc
  | line :: rest, acc =>
      let parts := splitOnChar line '\t'
      if parts.length < 9 then runtimeRowsAux rest acc
      else
        let public_key := parts.getD 1 ""
        let lh := if pyIsDigit (parts.getD 5 "") then digitsToNat (parts.getD 5 "") else 0
        match pyInt (parts.getD 6 ""), pyInt (parts.getD 7 "") with
        | some rx, some tx =>
            runtimeRowsAux rest (assocSet acc public_key {
              endpoint := if parts.getD 3 "" = "(none)" then none else some (parts.getD 3 "")
              allowed_ips := parts.getD 4 ""
              latest_handshake := if lh ≠ 0 then some lh else none
              transfer_rx := rx
              transfer_tx := tx
              persistent_keepalive :=
                if pyIsDigit (parts.getD 8 "") then
                  some ((digitsToNat (parts.getD 8 "") : Nat) : Int)
                else none })
        | _, _ => .error .valueError

/-- The function `WireGuardService._runtime_peer_map` given the dump's stdout lines:
skips the first line (the interface's own record), then folds the rows. -/
def runtime_peer_map (dumpLines : List String) :
    Except PyError (List (String × RuntimeStatus)) :=
  runtimeRowsAux (dumpLines.drop 1) []

/-! Methods `list_peers` and `get_peer` -/

/-- The errors that can escape `list_peers` / `get_peer`:
`sourceUnavailable` is the `WireGuardError` of `_read_config_lines`;
`valueError` is the uncaught `ValueError` of `_runtime_peer_map` (the
`except WireGuardError` in `list_peers` does not catch it). -/
inductive WgError
  | sourceUnavailable
  | valueError
deriving DecidableEq

/-- The merge loop of `list_peers`: for each peer, if its public key is in the
runtime map, overwrite the five runtime fields from the status entry
(`if status:` is always true for an entry, the dict being nonempty). -/
def mergeRuntime (peers : List WireGuardPeer)
    (runtime : List (String × RuntimeStatus)) : List WireGuardPeer :=
  peers.map (fun peer =>
    match assocGetLast runtime peer.public_key with
    | some status =>
        { peer with
          latest_handshake := status.latest_handshake
          transfer_rx := some status.transfer_rx
          transfer_tx := some status.transfer_tx
          persistent_keepalive := status.persistent_keepalive
          endpoint := status.endpoint }
    | none => peer)

/-- The method `WireGuardService.list_peers`. Here `cfg` is the outcome of
`_read_config_lines` (error = `WireGuardError`, i.e. the source text cannot
be obtained); `dump` is the outcome of the `wg show … dump` invocation
(error = `WireGuardError`, caught and replaced by an empty runtime map). -/
def list_peers (cfg : Except Unit (List String)) (dump : Except Unit (List String))
    (include_runtime : Bool) : Except WgError (List WireGuardPeer) :=
  match cfg with
  | .error _ => .error .sourceUnavailable
  | .ok cfgLines =>
      let peers := parse_config cfgLines
      if include_runtime then
        match dump with
        | .error _ => .ok (mergeRuntime peers [])
        | .ok dumpLines =>
            match runtime_peer_map dumpLines with
            | .error _ => .error .valueError
            | .ok runtime => .ok (mergeRuntime peers runtime)
      else .ok peers

/-- The method `WireGuardService.get_peer`: strip the input, then return the first peer
of `list_peers` whose identifier or public key equals it. -/
def get_peer (cfg : Except Unit (List String)) (dump : Except Unit (List String))
    (identifier : String) : Except WgError (Option WireGuardPeer) :=
  let ident := pyStrip identifier
  match list_peers cfg dump true with
  | .error e => .error e
  | .ok peers =>
      .ok (peers.find? (fun peer => peer.identifier == ident || peer.public_key == ident))

/-! Derived definitions used by the verification -/

/-- Whether a dump row cannot make `_runtime_peer_map` raise: it is short,
or both of its transfer fields parse as integers. -/
def dumpRowOk (line : String) : Bool :=
  let parts := splitOnChar line '\t'
  decide (parts.length < 9) ||
    ((pyInt (parts.getD 6 "")).isSome && (pyInt (parts.getD 7 "")).isSome)

/-- Whether an `Except` value is a success. -/
def exceptIsOk {ε α : Type} : Except ε α → Bool
  | .ok _ => true
  | .error _ => false

/-- Specification-side restatement of the backward comment scan of
`_extract_name` (section 4.1 step 3 of the spec), over the lines before the
header listed nearest-first: take the contiguous run of comment lines, strip
each to its comment text, drop the empty ones, and let the nearest remaining
comment (if any) supply the name — `name:`-prefixed comments give the text
after the first colon, others give the whole comment. -/
def nameSpecList (back : List String) : Option String :=
  let comments := back.takeWhile (fun l => strStartsWith (pyStrip l) "#")
  let contents := (comments.map (fun l => pyStrip (pyLstripHash (pyStrip l)))).filter
    (fun c => c ≠ "")
  contents.head?.map (fun c =>
    if strStartsWith (pyLower c) "name:" then pyStrip (afterFirstColon c) else c)

/-- The scan `nameSpecList` applied to the lines before index `i`,
nearest-first. -/
def nameSpec (lines : List String) (i : Nat) : Option String :=
  nameSpecList (((List.range i).reverse).map (fun k => lines.getD k ""))

/-- A minimal peer record with public key `"ABC123"` and no runtime data. -/
def abcPeer : WireGuardPeer :=
  { identifier := "ABC123", name := "ABC123", public_key := "ABC123",
    allowed_ips := [], endpoint := none, persistent_keepalive := none,
    latest_handshake := none, transfer_rx := none, transfer_tx := none,
    is_enabled := true, raw_block := none }

/-- The record `abcPeer` after merging the specification's example dump
row. -/
def abcPeerMerged : WireGuardPeer :=
  { identifier := "ABC123", name := "ABC123", public_key := "ABC123",
    allowed_ips := [], endpoint := some "1.2.3.4:51820",
    persistent_keepalive := some 25, latest_handshake := some 1700000000,
    transfer_rx := some 500, transfer_tx := some 700,
    is_enabled := true, raw_block := none }

/-- A minimal peer record with public key `"A"`. -/
def samplePeer : WireGuardPeer :=
  { identifier := "A", name := "A", public_key := "A", allowed_ips := [],
    endpoint := none, persistent_keepalive := none, latest_handshake := none,
    transfer_rx := none, transfer_tx := none, is_enabled := true,
    raw_block := none }

/-! Helper lemmas about the loops -/

/-- The index returned by `collectBlockAux` never goes backward. -/
theorem collectBlockAux_le (lines : List String) (s : Nat) :
    ∀ fuel j, j ≤ (collectBlockAux lines s fuel j).2 := by
  intro fuel
  induction fuel with
  | zero => intro j; exact Nat.le_refl j
  | succ fuel ih =>
      intro j
      simp only [collectBlockAux]
      by_cases hj : j < lines.length
      · rw [if_pos hj]
        by_cases hb : (j ≠ s && is_peer_header (lines.getD j "")) = true
        · rw [if_pos hb]
        · rw [if_neg hb]
          exact Nat.le_trans (Nat.le_succ j) (ih (j + 1))
      · rw [if_neg hj]

/-- A block collected from an in-range start index ends strictly after it. -/
theorem collect_block_lt (lines : List String) (s : Nat) (h : s < lines.length) :
    s + 1 ≤ (collect_block lines s).2 := by
  unfold collect_block
  simp only [collectBlockAux]
  rw [if_pos h]
  have : (s ≠ s && is_peer_header (lines.getD s "")) = false := by
    simp
  rw [this]
  simp only [Bool.false_eq_true, if_false]
  exact collectBlockAux_le lines s (lines.length) (s + 1)

/-- The fuel of `parseConfigAux` is irrelevant as long as it exceeds the
number of lines left of the cursor. -/
theorem parseConfigAux_fuel (lines : List String) :
    ∀ fuel₁ fuel₂ i, lines.length - i < fuel₁ → lines.length - i < fuel₂ →
      parseConfigAux lines fuel₁ i = parseConfigAux lines fuel₂ i := by
  intro fuel₁
  induction fuel₁ with
  | zero => intro fuel₂ i h₁ h₂; omega
  | succ fuel ih =>
      intro fuel₂ i h₁ h₂
      cases fuel₂ with
      | zero => omega
      | succ fuel₂ =>
          simp only [parseConfigAux]
          by_cases hi : i < lines.length
          · rw [if_pos hi, if_pos hi]
            by_cases hh : is_peer_header (pyStrip (lines.getD i "")) = true
            · rw [if_pos hh, if_pos hh]
              have hb := collect_block_lt lines i hi
              have h₁' : lines.length - (collect_block lines i).2 < fuel := by omega
              have h₂' : lines.length - (collect_block lines i).2 < fuel₂ := by omega
              rw [ih fuel₂ (collect_block lines i).2 h₁' h₂']
            · rw [if_neg hh, if_neg hh]
              exact ih fuel₂ (i + 1) (by omega) (by omega)
          · rw [if_neg hi, if_neg hi]

/-- One step of the `_parse_config` loop: on a peer-header whose block
yields no peer, the loop continues at the block's terminating index. -/
theorem parseFrom_step_skipped (lines : List String) (i : Nat)
    (hi : i < lines.length)
    (hh : is_peer_header (pyStrip (lines.getD i "")) = true)
    (hp : parse_peer_block (collect_block lines i).1 (extract_name lines i) = none) :
    parseFrom lines i = parseFrom lines (collect_block lines i).2 := by
  unfold parseFrom
  conv_lhs => rw [show lines.length + 1 = (lines.length) + 1 from rfl]
  simp only [parseConfigAux]
  rw [if_pos hi, if_pos hh, hp]
  have hb := collect_block_lt lines i hi
  exact parseConfigAux_fuel lines lines.length (lines.length + 1)
    (collect_block lines i).2 (by omega) (by omega)

/-- Merging with an empty runtime map changes nothing. -/
theorem mergeRuntime_nil (peers : List WireGuardPeer) :
    mergeRuntime peers [] = peers := by
  unfold mergeRuntime
  simp [assocGetLast]

/-- The row loop succeeds exactly when every row is `dumpRowOk`. -/
theorem runtimeRowsAux_ok (rows : List String) :
    ∀ acc, exceptIsOk (runtimeRowsAux rows acc) = rows.all dumpRowOk := by
  induction rows with
  | nil => intro acc; rfl
  | cons line rest ih =>
      intro acc
      simp only [runtimeRowsAux, List.all_cons]
      by_cases hs : (splitOnChar line '\t').length < 9
      · rw [if_pos hs, ih]
        have hd : dumpRowOk line = true := by
          simp only [dumpRowOk]
          rw [decide_eq_true hs, Bool.true_or]
        rw [hd, Bool.true_and]
      · rw [if_neg hs]
        cases h₆ : pyInt ((splitOnChar line '\t').getD 6 "") with
        | none =>
            have hd : dumpRowOk line = false := by
              simp only [dumpRowOk]
              rw [decide_eq_false hs, h₆, Bool.false_or, Option.isSome_none,
                Bool.false_and]
            rw [hd, Bool.false_and]
            simp only [h₆]
            rfl
        | some rx =>
            cases h₇ : pyInt ((splitOnChar line '\t').getD 7 "") with
            | none =>
                have hd : dumpRowOk line = false := by
                  simp only [dumpRowOk]
                  rw [decide_eq_false hs, h₆, h₇, Bool.false_or, Option.isSome_some,
                    Option.isSome_none, Bool.true_and]
                rw [hd, Bool.false_and]
                simp only [h₆, h₇]
                rfl
            | some tx =>
                have hd : dumpRowOk line = true := by
                  simp only [dumpRowOk]
                  rw [decide_eq_false hs, h₆, h₇, Bool.false_or, Option.isSome_some,
                    Option.isSome_some, Bool.true_and]
                rw [hd, Bool.true_and]
                simp only [h₆, h₇]
                exact ih _

/-! Claims -/

/-- C1 is refuted at this input: a dump row with 9 tab-separated fields whose
transfer-rx field is the non-numeric string `"XX"` makes the dump parse raise
(the bare `int(parts[6])` call raises `ValueError`, which is not a
`WireGuardError` and is not caught), instead of being silently skipped. -/
theorem C1_counterexample :
    runtime_peer_map ["h", "a\tB\tc\t(none)\td\t0\tXX\t0\t0"] =
      Except.error PyError.valueError := by
  rfl

/-- C1 (amended): config parsing raises no error on malformed content (an
empty config yields no peers, and parsing is total), and the dump parse
skips short rows and rows with non-numeric handshake or keepalive fields;
however a dump row with at least 9 tab-separated fields raises an error
(Python `ValueError`) when its transfer-rx or transfer-tx field does not
parse as an integer: the dump parse succeeds exactly when every row after
the first is short or has both transfer fields numeric. -/
theorem C1_parse_error_conditions (dumpLines : List String) :
    parse_config [] = [] ∧
    exceptIsOk (runtime_peer_map dumpLines) = (dumpLines.drop 1).all dumpRowOk := by
  exact ⟨rfl, runtimeRowsAux_ok (dumpLines.drop 1) []⟩

/-- C2: if the config text cannot be obtained, `list_peers` and `get_peer`
fail with a SourceUnavailable error (`WireGuardError`) rather than return an
empty list; if only the runtime-status query fails, `list_peers` returns the
config-parsed peers untouched and raises nothing. -/
theorem C2_source_vs_runtime_asymmetry (cfgLines : List String)
    (d : Except Unit (List String)) (s : String) :
    list_peers (Except.error ()) d true = Except.error WgError.sourceUnavailable ∧
    get_peer (Except.error ()) d s = Except.error WgError.sourceUnavailable ∧
    list_peers (Except.ok cfgLines) (Except.error ()) true =
      Except.ok (parse_config cfgLines) := by
    refine ⟨rfl, rfl, ?_⟩
    simp only [list_peers, if_pos]
    rw [mergeRuntime_nil]

/-- C3 is refuted at this input: the line `"[Peer] junk"` is treated as a
peer-header (it starts a block that yields a peer) although its stripped
lowercase form is `"[peer] junk"`, not exactly `"[peer]"` — the code tests
`startswith("[peer]")`, not equality. -/
theorem C3_counterexample :
    is_peer_header "[Peer] junk" = true ∧
    (parse_config ["[Peer] junk", "PublicKey = A"]).length = 1 ∧
    pyLower (pyStrip (pyLstripHash "[Peer] junk")) ≠ "[peer]" := by
  refine ⟨rfl, rfl, by decide⟩

/-- C3 (amended): a line is treated as a peer-header if and only if, after
stripping a leading run of `'#'` characters and surrounding whitespace, its
lowercase form STARTS WITH `"[peer]"` (rather than equals it); in particular
both `"[Peer]"` and `"#[Peer]"` are peer-headers. -/
theorem C3_peer_header_iff (line : String) :
    (is_peer_header line = true ↔
      ∃ rest, (pyLower (pyStrip (pyLstripHash line))).toList =
        "[peer]".toList ++ rest) ∧
    is_peer_header "[Peer]" = true ∧ is_peer_header "#[Peer]" = true := by
  refine ⟨?_, rfl, rfl⟩
  unfold is_peer_header strStartsWith
  rw [ List.isPrefixOf_iff_prefix]
  constructor
  · rintro ⟨t, ht⟩
    exact ⟨t, ht.symm⟩
  · rintro ⟨t, ht⟩
    exact ⟨t, ht.symm⟩

/-- A non-comment nearest line stops the spec-side scan with no name. -/
theorem nameSpecList_cons_not_comment (l : String) (back : List String)
    (hc : strStartsWith (pyStrip l) "#" = false) :
    nameSpecList (l :: back) = none := by
  simp [nameSpecList, List.takeWhile_cons, hc]

/-- An empty comment is skipped by the spec-side scan. -/
theorem nameSpecList_cons_empty (l : String) (back : List String)
    (hc : strStartsWith (pyStrip l) "#" = true)
    (he : pyStrip (pyLstripHash (pyStrip l)) = "") :
    nameSpecList (l :: back) = nameSpecList back := by
  simp [nameSpecList, List.takeWhile_cons, hc, he]

/-- A nonempty comment supplies the name and stops the spec-side scan. -/
theorem nameSpecList_cons_content (l : String) (back : List String)
    (hc : strStartsWith (pyStrip l) "#" = true)
    (he : pyStrip (pyLstripHash (pyStrip l)) ≠ "") :
    nameSpecList (l :: back) =
      some (if strStartsWith (pyLower (pyStrip (pyLstripHash (pyStrip l)))) "name:" then
          pyStrip (afterFirstColon (pyStrip (pyLstripHash (pyStrip l))))
        else pyStrip (pyLstripHash (pyStrip l))) := by
  simp [nameSpecList, List.takeWhile_cons, hc, he]

/-- The index-walking backward scan computes exactly `nameSpec`. -/
theorem extractNameAux_eq_nameSpec (lines : List String) :
    ∀ i, extractNameAux lines i = nameSpec lines i := by
  intro i
  induction i with
  | zero => rfl
  | succ k ih =>
      have hrange : ((List.range (k + 1)).reverse.map (fun j => lines.getD j "")) =
          lines.getD k "" :: ((List.range k).reverse.map (fun j => lines.getD j "")) := by
        rw [List.range_succ, List.reverse_append]
        rfl
      have hspec : nameSpec lines (k + 1) =
          nameSpecList (lines.getD k "" ::
            ((List.range k).reverse.map (fun j => lines.getD j ""))) :=
        congrArg nameSpecList hrange
      by_cases hc : strStartsWith (pyStrip (lines.getD k "")) "#" = true
      · by_cases he : pyStrip (pyLstripHash (pyStrip (lines.getD k ""))) = ""
        · have hL : extractNameAux lines (k + 1) = extractNameAux lines k := by
            simp only [extractNameAux]
            rw [if_pos hc, if_neg (not_not_intro he)]
          rw [hL, ih, hspec, nameSpecList_cons_empty _ _ hc he]
          rfl
        · have hL : extractNameAux lines (k + 1) =
              (if strStartsWith
                  (pyLower (pyStrip (pyLstripHash (pyStrip (lines.getD k "")))))
                  "name:" = true then
                some (pyStrip (afterFirstColon (pyStrip (pyLstripHash (pyStrip (lines.getD k ""))))))
              else some (pyStrip (pyLstripHash (pyStrip (lines.getD k ""))))) := by
            simp only [extractNameAux]
            rw [if_pos hc, if_pos he]
          rw [hL, hspec, nameSpecList_cons_content _ _ hc he, apply_ite some]
      · rw [Bool.not_eq_true] at hc
        have hL : extractNameAux lines (k + 1) = none := by
          simp only [extractNameAux]
          rw [if_neg (by rw [hc]; simp)]
        rw [hL, hspec, nameSpecList_cons_not_comment _ _ hc]

/-- C4: the name of a peer-header at index `i` is found by walking backward
over comment lines from `i-1`, skipping empty comments; the nearest nonempty
comment alone supplies the name (text after the first colon when it starts
with `name:`, otherwise the whole comment), scanning never crosses a
non-comment line, and when no name is found the identifier falls back to the
public key. -/
theorem C4_name_extraction (lines : List String) (i : Nat) (blk : List String) :
    extract_name lines i = nameSpec lines i ∧
    (parse_peer_block blk none).all (fun p => p.identifier == p.public_key) = true := by
  constructor
  · exact extractNameAux_eq_nameSpec lines i
  · cases h : dictGet (blockData blk) "publickey" with
    | none => simp only [parse_peer_block, h]; rfl
    | some pk =>
        simp only [parse_peer_block, h]
        by_cases hpk : pk = ""
        · rw [if_pos hpk]; rfl
        · rw [if_neg hpk]
          simp [orElseStr]

/-- The enabled flag of an emitted peer is the block's `any` over active
lines. -/
theorem parse_peer_block_is_enabled (blk : List String) (name : Option String)
    (p : WireGuardPeer) (h : parse_peer_block blk name = some p) :
    p.is_enabled = blk.any
      (fun line => (pyStrip line != "") && !(strStartsWith (pyStrip line) "#")) := by
  simp only [parse_peer_block] at h
  cases hd : dictGet (blockData blk) "publickey" with
  | none => simp only [hd] at h; exact Option.noConfusion h
  | some pk =>
      simp only [hd] at h
      by_cases hpk : pk = ""
      · rw [if_pos hpk] at h; exact Option.noConfusion h
      · rw [if_neg hpk] at h
        cases Option.some.inj h
        rfl

/-- C5: an emitted peer is enabled iff some line of its block is nonempty
after trimming and does not start with `'#'`; and a fully commented block
still has its key/value pairs parsed, so a commented `publickey` line still
yields a (disabled) peer. -/
theorem C5_enabled_invariant (blk : List String) (name : Option String)
    (p : WireGuardPeer) (h : parse_peer_block blk name = some p) :
    (p.is_enabled = true ↔
      ∃ l ∈ blk, pyStrip l ≠ "" ∧ strStartsWith (pyStrip l) "#" = false) ∧
    ∃ q, parse_peer_block ["#[Peer]", "# PublicKey = K"] none = some q ∧
      q.is_enabled = false ∧ q.public_key = "K" := by
  constructor
  · rw [parse_peer_block_is_enabled blk name p h]
    simp only [List.any_eq_true, Bool.and_eq_true, bne_iff_ne, Bool.not_eq_true']
  · exact ⟨_, rfl, rfl, rfl⟩

/-- C5 witness at the minimal active block. -/
theorem C5_witness :
    ({ identifier := "A", name := "A", public_key := "A", allowed_ips := [],
       endpoint := none, persistent_keepalive := none, latest_handshake := none,
       transfer_rx := none, transfer_tx := none, is_enabled := true,
       raw_block := some ["[Peer]", "PublicKey = A"] } : WireGuardPeer).is_enabled
       = true ↔
      ∃ l ∈ ["[Peer]", "PublicKey = A"],
        pyStrip l ≠ "" ∧ strStartsWith (pyStrip l) "#" = false :=
  (C5_enabled_invariant ["[Peer]", "PublicKey = A"] none
    { identifier := "A", name := "A", public_key := "A", allowed_ips := [],
      endpoint := none, persistent_keepalive := none, latest_handshake := none,
      transfer_rx := none, transfer_tx := none, is_enabled := true,
      raw_block := some ["[Peer]", "PublicKey = A"] } (by decide)).1

/-- C6: a block whose key/value mapping lacks `publickey` yields no peer, and
the parse loop continues at the block's terminating index, so subsequent
blocks are still parsed. -/
theorem C6_missing_publickey_skips_block (lines : List String) (i : Nat)
    (hi : i < lines.length)
    (hh : is_peer_header (pyStrip (lines.getD i "")) = true)
    (hkey : dictGet (blockData (collect_block lines i).1) "publickey" = none) :
    parse_peer_block (collect_block lines i).1 (extract_name lines i) = none ∧
    parseFrom lines i = parseFrom lines (collect_block lines i).2 := by
  have hp : parse_peer_block (collect_block lines i).1 (extract_name lines i) = none := by
    simp only [parse_peer_block, hkey]
  exact ⟨hp, parseFrom_step_skipped lines i hi hh hp⟩

/-- C6 witness: a keyless block followed by a valid one; the loop resumes at
index 2, and the second block is still emitted. -/
theorem C6_witness :
    parse_peer_block
      (collect_block ["[Peer]", "AllowedIPs = 10.0.0.1/32", "[Peer]", "PublicKey = B"] 0).1
      (extract_name ["[Peer]", "AllowedIPs = 10.0.0.1/32", "[Peer]", "PublicKey = B"] 0)
      = none ∧
    parseFrom ["[Peer]", "AllowedIPs = 10.0.0.1/32", "[Peer]", "PublicKey = B"] 0 =
      parseFrom ["[Peer]", "AllowedIPs = 10.0.0.1/32", "[Peer]", "PublicKey = B"]
        (collect_block ["[Peer]", "AllowedIPs = 10.0.0.1/32", "[Peer]", "PublicKey = B"] 0).2 :=
  C6_missing_publickey_skips_block
    ["[Peer]", "AllowedIPs = 10.0.0.1/32", "[Peer]", "PublicKey = B"] 0
    (by decide) (by decide) (by decide)

/-- The code's handshake expression (`int(parts[5]) if parts[5].isdigit()
else 0`, then `… if latest_handshake else None`) equals the spec's "absent
when the field is 0 or non-numeric". -/
theorem lh_if_form (b : Bool) (n : Nat) :
    (if (if b then n else 0) ≠ 0 then some (if b then n else 0) else none) =
      (if b && n != 0 then some n else none) := by
  cases b <;> by_cases h : n = 0 <;> simp [h]

/-- Merging a single peer against a single-entry runtime map whose key is the
peer's public key overwrites exactly the five runtime fields. -/
theorem mergeRuntime_single (p : WireGuardPeer) (k : String) (st : RuntimeStatus)
    (hk : p.public_key = k) :
    mergeRuntime [p] [(k, st)] = [{ p with
      latest_handshake := st.latest_handshake
      transfer_rx := some st.transfer_rx
      transfer_tx := some st.transfer_tx
      persistent_keepalive := st.persistent_keepalive
      endpoint := st.endpoint }] := by
  subst hk
  simp [mergeRuntime, assocGetLast]

/-- C7: a dump row with at least 9 tab-separated fields and numeric transfer
fields yields a runtime entry for field 1, and merging a peer with that
public key sets endpoint to field 3 (absent for the literal `"(none)"`),
latestHandshake to the epoch of field 5 (absent when 0 or non-numeric),
transferRx/transferTx to fields 6 and 7, and persistentKeepalive to field 8
(absent when non-numeric); a row with fewer than 9 fields contributes no
entry. -/
theorem C7_runtime_merge_overlay (hd l : String) (p : WireGuardPeer) (rx tx : Int)
    (hlen : ¬ (splitOnChar l '\t').length < 9)
    (hrx : pyInt ((splitOnChar l '\t').getD 6 "") = some rx)
    (htx : pyInt ((splitOnChar l '\t').getD 7 "") = some tx)
    (hkey : p.public_key = (splitOnChar l '\t').getD 1 "") :
    (∃ m, runtime_peer_map [hd, l] = Except.ok m ∧
      mergeRuntime [p] m = [{ p with
        endpoint := if (splitOnChar l '\t').getD 3 "" = "(none)" then none
          else some ((splitOnChar l '\t').getD 3 "")
        latest_handshake :=
          if pyIsDigit ((splitOnChar l '\t').getD 5 "") &&
              digitsToNat ((splitOnChar l '\t').getD 5 "") != 0 then
            some (digitsToNat ((splitOnChar l '\t').getD 5 ""))
          else none
        transfer_rx := some rx
        transfer_tx := some tx
        persistent_keepalive :=
          if pyIsDigit ((splitOnChar l '\t').getD 8 "") then
            some ((digitsToNat ((splitOnChar l '\t').getD 8 "") : Nat) : Int)
          else none }]) ∧
    (∀ hd₂ l₂, (splitOnChar l₂ '\t').length < 9 →
      runtime_peer_map [hd₂, l₂] = Except.ok []) := by
  constructor
  · refine ⟨[((splitOnChar l '\t').getD 1 "",
      { endpoint := if (splitOnChar l '\t').getD 3 "" = "(none)" then none
          else some ((splitOnChar l '\t').getD 3 "")
        allowed_ips := (splitOnChar l '\t').getD 4 ""
        latest_handshake :=
          if (if pyIsDigit ((splitOnChar l '\t').getD 5 "") then
              digitsToNat ((splitOnChar l '\t').getD 5 "") else 0) ≠ 0 then
            some (if pyIsDigit ((splitOnChar l '\t').getD 5 "") then
              digitsToNat ((splitOnChar l '\t').getD 5 "") else 0)
          else none
        transfer_rx := rx
        transfer_tx := tx
        persistent_keepalive :=
          if pyIsDigit ((splitOnChar l '\t').getD 8 "") then
            some ((digitsToNat ((splitOnChar l '\t').getD 8 "") : Nat) : Int)
          else none })], ?_, ?_⟩
    · have hstep : runtime_peer_map [hd, l] = runtimeRowsAux [l] [] := rfl
      rw [hstep]
      simp only [runtimeRowsAux]
      rw [if_neg hlen, hrx, htx]
      rfl
    · rw [mergeRuntime_single p _ _ hkey]
      simp only [lh_if_form]
  · intro hd₂ l₂ hshort
    have hstep : runtime_peer_map [hd₂, l₂] = runtimeRowsAux [l₂] [] := rfl
    rw [hstep]
    simp only [runtimeRowsAux]
    rw [if_pos hshort]

/-- C7 witness at the specification's example dump row. -/
theorem C7_witness :
    (∃ m, runtime_peer_map
        ["h", "x\tABC123\tx\t1.2.3.4:51820\t10.0.0.2/32\t1700000000\t500\t700\t25"] =
        Except.ok m ∧
      mergeRuntime [abcPeer] m = [abcPeerMerged]) ∧
    (∀ hd₂ l₂, (splitOnChar l₂ '\t').length < 9 →
      runtime_peer_map [hd₂, l₂] = Except.ok []) :=
  C7_runtime_merge_overlay "h"
    "x\tABC123\tx\t1.2.3.4:51820\t10.0.0.2/32\t1700000000\t500\t700\t25"
    abcPeer 500 700 (by decide) (by decide) (by decide) (by decide)

/-- C8: the runtime merge touches only the five runtime fields — identifier,
name, publicKey, allowedIPs, isEnabled and rawBlock are unchanged at every
position — and a peer whose public key is absent from the runtime mapping is
left entirely unchanged. -/
theorem C8_merge_frame (peers : List WireGuardPeer)
    (runtime : List (String × RuntimeStatus)) (i : Nat)
    (hi : i < peers.length) (hj : i < (mergeRuntime peers runtime).length) :
    (mergeRuntime peers runtime).length = peers.length ∧
    ((mergeRuntime peers runtime).get ⟨i, hj⟩).identifier =
      (peers.get ⟨i, hi⟩).identifier ∧
    ((mergeRuntime peers runtime).get ⟨i, hj⟩).name = (peers.get ⟨i, hi⟩).name ∧
    ((mergeRuntime peers runtime).get ⟨i, hj⟩).public_key =
      (peers.get ⟨i, hi⟩).public_key ∧
    ((mergeRuntime peers runtime).get ⟨i, hj⟩).allowed_ips =
      (peers.get ⟨i, hi⟩).allowed_ips ∧
    ((mergeRuntime peers runtime).get ⟨i, hj⟩).is_enabled =
      (peers.get ⟨i, hi⟩).is_enabled ∧
    ((mergeRuntime peers runtime).get ⟨i, hj⟩).raw_block =
      (peers.get ⟨i, hi⟩).raw_block ∧
    (assocGetLast runtime ((peers.get ⟨i, hi⟩).public_key) = none →
      (mergeRuntime peers runtime).get ⟨i, hj⟩ = peers.get ⟨i, hi⟩) := by
  have hq : (mergeRuntime peers runtime).get ⟨i, hj⟩ =
      (fun peer => match assocGetLast runtime peer.public_key with
        | some status =>
            { peer with
              latest_handshake := status.latest_handshake
              transfer_rx := some status.transfer_rx
              transfer_tx := some status.transfer_tx
              persistent_keepalive := status.persistent_keepalive
              endpoint := status.endpoint }
        | none => peer) (peers.get ⟨i, hi⟩) := by
    simp [mergeRuntime]
  refine ⟨by simp [mergeRuntime], ?_⟩
  rw [hq]
  cases hst : assocGetLast runtime ((peers.get ⟨i, hi⟩).public_key) with
  | some st =>
      simp only [List.get_eq_getElem] at hst
      simp [hst]
  | none =>
      simp only [List.get_eq_getElem] at hst
      simp [hst]

/-- C8 witness: a single peer merged against an empty runtime map. -/
theorem C8_witness :
    (mergeRuntime [samplePeer] []).length = [samplePeer].length ∧
    ((mergeRuntime [samplePeer] []).get ⟨0, by decide⟩).identifier =
      ([samplePeer].get ⟨0, by decide⟩).identifier ∧
    ((mergeRuntime [samplePeer] []).get ⟨0, by decide⟩).name =
      ([samplePeer].get ⟨0, by decide⟩).name ∧
    ((mergeRuntime [samplePeer] []).get ⟨0, by decide⟩).public_key =
      ([samplePeer].get ⟨0, by decide⟩).public_key ∧
    ((mergeRuntime [samplePeer] []).get ⟨0, by decide⟩).allowed_ips =
      ([samplePeer].get ⟨0, by decide⟩).allowed_ips ∧
    ((mergeRuntime [samplePeer] []).get ⟨0, by decide⟩).is_enabled =
      ([samplePeer].get ⟨0, by decide⟩).is_enabled ∧
    ((mergeRuntime [samplePeer] []).get ⟨0, by decide⟩).raw_block =
      ([samplePeer].get ⟨0, by decide⟩).raw_block ∧
    (assocGetLast [] (([samplePeer].get ⟨0, by decide⟩).public_key) = none →
      (mergeRuntime [samplePeer] []).get ⟨0, by decide⟩ =
        [samplePeer].get ⟨0, by decide⟩) :=
  C8_merge_frame [samplePeer] [] 0 (by decide) (by decide)

/-- The function `List.find?` returns an element satisfying the predicate at the first
position where it holds. -/
theorem find?_first_characterization {α : Type} (q : α → Bool) :
    ∀ (l : List α) (r : α), l.find? q = some r →
      q r = true ∧ ∃ n, ∃ hn : n < l.length, l.get ⟨n, hn⟩ = r ∧
        ∀ m (hm : m < n), q (l.get ⟨m, Nat.lt_trans hm hn⟩) = false := by
  intro l
  induction l with
  | nil => intro r h; exact Option.noConfusion h
  | cons a t ih =>
      intro r h
      cases hqa : q a with
      | true =>
          rw [List.find?_cons_of_pos _ hqa] at h
          cases Option.some.inj h
          exact ⟨hqa, 0, Nat.succ_pos _, rfl,
            fun m hm => absurd hm (Nat.not_lt_zero m)⟩
      | false =>
          rw [List.find?_cons_of_neg _ (by simp [hqa])] at h
          obtain ⟨hqr, n, hn, hget, hprev⟩ := ih r h
          refine ⟨hqr, n + 1, Nat.succ_lt_succ hn, hget, ?_⟩
          intro m hm
          cases m with
          | zero => exact hqa
          | succ m' => exact hprev m' (Nat.lt_of_succ_lt_succ hm)

/-- C9: `get_peer` trims its input and returns the first peer, in parse
order, whose identifier or public key equals the trimmed input exactly
(case-sensitive, the records' own fields untrimmed); it returns absent
(`none`) rather than raising when nothing matches. -/
theorem C9_get_peer_dual_lookup (cfg dump : Except Unit (List String)) (s : String)
    (peers : List WireGuardPeer) (h : list_peers cfg dump true = Except.ok peers) :
    (get_peer cfg dump s = Except.ok none ↔
      ∀ r ∈ peers, r.identifier ≠ pyStrip s ∧ r.public_key ≠ pyStrip s) ∧
    ∀ r, get_peer cfg dump s = Except.ok (some r) →
      (r.identifier = pyStrip s ∨ r.public_key = pyStrip s) ∧
      ∃ n, ∃ hn : n < peers.length, peers.get ⟨n, hn⟩ = r ∧
        ∀ m (hm : m < n),
          (peers.get ⟨m, Nat.lt_trans hm hn⟩).identifier ≠ pyStrip s ∧
          (peers.get ⟨m, Nat.lt_trans hm hn⟩).public_key ≠ pyStrip s := by
  have hg : get_peer cfg dump s =
      Except.ok (peers.find? (fun peer => peer.identifier == pyStrip s ||
        peer.public_key == pyStrip s)) := by
    simp only [get_peer, h]
  constructor
  · rw [hg]
    constructor
    · intro hnone
      have hfind := Except.ok.inj hnone
      rw [List.find?_eq_none] at hfind
      intro r hr
      have := hfind r hr
      simpa using this
    · intro hall
      have hfind : peers.find? (fun peer => peer.identifier == pyStrip s ||
          peer.public_key == pyStrip s) = none := by
        rw [List.find?_eq_none]
        intro x hx
        have := hall x hx
        simp [this.1, this.2]
      rw [hfind]
  · intro r hr
    rw [hg] at hr
    have hfind := Except.ok.inj hr
    obtain ⟨hq, n, hn, hget, hprev⟩ := find?_first_characterization _ peers r hfind
    constructor
    · simpa using hq
    · refine ⟨n, hn, hget, fun m hm => ?_⟩
      have := hprev m hm
      simpa using this

/-- C9 witness: lookup of a single peer by its (whitespace-padded) public
key. -/
theorem C9_witness :
    (get_peer (Except.ok ["[Peer]", "PublicKey = K"]) (Except.error ()) " K " =
        Except.ok none ↔
      ∀ r ∈ parse_config ["[Peer]", "PublicKey = K"],
        r.identifier ≠ pyStrip " K " ∧ r.public_key ≠ pyStrip " K ") ∧
    ∀ r, get_peer (Except.ok ["[Peer]", "PublicKey = K"]) (Except.error ()) " K " =
        Except.ok (some r) →
      (r.identifier = pyStrip " K " ∨ r.public_key = pyStrip " K ") ∧
      ∃ n, ∃ hn : n < (parse_config ["[Peer]", "PublicKey = K"]).length,
        (parse_config ["[Peer]", "PublicKey = K"]).get ⟨n, hn⟩ = r ∧
        ∀ m (hm : m < n),
          ((parse_config ["[Peer]", "PublicKey = K"]).get
            ⟨m, Nat.lt_trans hm hn⟩).identifier ≠ pyStrip " K " ∧
          ((parse_config ["[Peer]", "PublicKey = K"]).get
            ⟨m, Nat.lt_trans hm hn⟩).public_key ≠ pyStrip " K " :=
  C9_get_peer_dual_lookup (Except.ok ["[Peer]", "PublicKey = K"]) (Except.error ())
    " K " (parse_config ["[Peer]", "PublicKey = K"]) rfl

/-- Python `lstrip("#")` is the identity on a line whose first character is
whitespace: the hash-stripping happens before any whitespace-stripping. -/
theorem pyLstripHash_of_head_space (l : String) (c : Char) (t : List Char)
    (hl : l.toList = c :: t) (hc : pyIsSpace c = true) : pyLstripHash l = l := by
  have hne : (c == '#') = false := by
    cases hbc : (c == '#') with
    | false => rfl
    | true =>
        rw [beq_iff_eq] at hbc
        subst hbc
        exact absurd hc (by decide)
  unfold pyLstripHash
  rw [hl, List.dropWhile_cons, hne]
  simp only [Bool.false_eq_true, if_false]
  rw [← hl]
  rfl

/-- Dropping a prefix from a list ending in a non-dropped element keeps that
last element. -/
theorem dropWhile_append_last {p : Char → Bool} (c : Char) (hc : p c = false) :
    ∀ d : List Char, ∃ z, List.dropWhile p (d ++ [c]) = z ++ [c] := by
  intro d
  induction d with
  | nil =>
      refine ⟨[], ?_⟩
      rw [List.nil_append, List.dropWhile_cons, hc]
      simp
  | cons y ys ih =>
      obtain ⟨z, hz⟩ := ih
      cases hy : p y with
      | true =>
          refine ⟨z, ?_⟩
          rw [List.cons_append, List.dropWhile_cons, hy]
          simpa using hz
      | false =>
          refine ⟨y :: ys, ?_⟩
          rw [List.cons_append, List.dropWhile_cons, hy]
          simp

/-- Python `strip()` keeps a non-whitespace head character. -/
theorem pyStripList_cons_head (c : Char) (cs : List Char)
    (hc : pyIsSpace c = false) : ∃ z, pyStripList (c :: cs) = c :: z := by
  unfold pyStripList
  rw [List.dropWhile_cons, hc]
  simp only [Bool.false_eq_true, if_false]
  rw [List.reverse_cons]
  obtain ⟨z, hz⟩ := dropWhile_append_last c hc cs.reverse
  refine ⟨z.reverse, ?_⟩
  rw [hz, List.reverse_append]
  rfl

/-- The key parsed from a line whose processed form starts with `'#'` itself
starts with `'#'`. -/
theorem key_head_hash (w : List Char) :
    ∃ z, (pyLower (pyStrip (String.mk ('#' :: w)))).toList = '#' :: z := by
  obtain ⟨z, hz⟩ := pyStripList_cons_head '#' w (by decide)
  refine ⟨z.map Char.toLower, ?_⟩
  show List.map Char.toLower (pyStripList ('#' :: w)) = _
  rw [hz]
  rfl

/-- One dict-building step preserves "every key starts with `'#'`" when the
processed line is empty or starts with `'#'`. -/
theorem blockDataStep_keys (d : List (String × String)) (l : String)
    (hline : (pyStrip (pyLstripHash l)).toList = [] ∨
      ∃ u, (pyStrip (pyLstripHash l)).toList = '#' :: u)
    (hd : ∀ p ∈ d, ∃ u, p.1.toList = '#' :: u) :
    ∀ p ∈ blockDataStep d l, ∃ u, p.1.toList = '#' :: u := by
  intro p hp
  simp only [blockDataStep] at hp
  rcases hline with hempty | ⟨u, hu⟩
  · rw [hempty] at hp
    rw [if_neg (by decide)] at hp
    exact hd p hp
  · rw [hu] at hp
    by_cases hcont : (('#' :: u).contains '=') = true
    · rw [if_pos hcont] at hp
      rcases List.mem_append.mp hp with hmem | hmem
      · exact hd p hmem
      · rw [List.mem_singleton] at hmem
        subst hmem
        exact key_head_hash _
    · rw [if_neg hcont] at hp
      exact hd p hp

/-- Folding the dict-building step preserves "every key starts with
`'#'`". -/
theorem foldl_blockDataStep_keys :
    ∀ (bs : List String) (d : List (String × String)),
      (∀ l ∈ bs, (pyStrip (pyLstripHash l)).toList = [] ∨
        ∃ u, (pyStrip (pyLstripHash l)).toList = '#' :: u) →
      (∀ p ∈ d, ∃ u, p.1.toList = '#' :: u) →
      ∀ p ∈ bs.foldl blockDataStep d, ∃ u, p.1.toList = '#' :: u := by
  intro bs
  induction bs with
  | nil => intro d _ hd p hp; exact hd p hp
  | cons l rest ih =>
      intro d hbs hd p hp
      rw [List.foldl_cons] at hp
      exact ih (blockDataStep d l)
        (fun x hx => hbs x (List.mem_cons_of_mem _ hx))
        (blockDataStep_keys d l (hbs l (List.mem_cons_self _ _)) hd) p hp

/-- When every key of the mapping starts with `'#'`, the `publickey` lookup
fails. -/
theorem dictGet_none_of_keys_hash (d : List (String × String))
    (h : ∀ p ∈ d, ∃ u, p.1.toList = '#' :: u) :
    dictGet d "publickey" = none := by
  unfold dictGet
  have hfind : d.reverse.find? (fun p => p.1 == "publickey") = none := by
    rw [List.find?_eq_none]
    intro x hx
    obtain ⟨u, hu⟩ := h x (List.mem_reverse.mp hx)
    intro hteq
    rw [beq_iff_eq] at hteq
    rw [hteq] at hu
    have h1 := congrArg List.head? hu
    simp at h1
  rw [hfind]
  rfl

/-- C10: leading `'#'` characters are stripped before whitespace, so a
commented key/value line is recognized only when `'#'` is the raw line's
first character: in a block whose lines are blank or indented comments, every
parsed key keeps its `'#'` (so `publickey` is never populated) and no peer is
emitted; with `'#'` in the first column the commented pair is parsed. -/
theorem C10_comment_strip_order (blk : List String) (name : Option String)
    (h : ∀ l ∈ blk, pyStrip l = "" ∨
      (headIsSpace l = true ∧ strStartsWith (pyStrip l) "#" = true)) :
    (∀ p ∈ blockData blk, strStartsWith p.1 "#" = true) ∧
    parse_peer_block blk name = none ∧
    ∃ q, parse_peer_block ["# PublicKey = K"] none = some q ∧
      q.public_key = "K" := by
  have hline : ∀ l ∈ blk, (pyStrip (pyLstripHash l)).toList = [] ∨
      ∃ u, (pyStrip (pyLstripHash l)).toList = '#' :: u := by
    intro l hl
    rcases h l hl with hempty | ⟨hws, hsharp⟩
    · left
      cases hlist : l.toList with
      | nil =>
          show pyStripList (List.dropWhile (fun c => c == '#') l.toList) = []
          rw [hlist]
          rfl
      | cons c t =>
          by_cases hcs : pyIsSpace c = true
          · rw [pyLstripHash_of_head_space l c t hlist hcs, hempty]
            rfl
          · exfalso
            rw [Bool.not_eq_true] at hcs
            obtain ⟨z, hz⟩ := pyStripList_cons_head c t hcs
            have hne : (pyStrip l).toList = c :: z := by
              show pyStripList l.toList = c :: z
              rw [hlist, hz]
            rw [hempty] at hne
            have : ([] : List Char) = c :: z := hne
            exact List.noConfusion this
    · right
      cases hlist : l.toList with
      | nil =>
          unfold headIsSpace at hws
          rw [hlist] at hws
          exact absurd hws (by decide)
      | cons c t =>
          have hcs : pyIsSpace c = true := by
            unfold headIsSpace at hws
            rw [hlist] at hws
            exact hws
          rw [pyLstripHash_of_head_space l c t hlist hcs]
          have hpre := List.isPrefixOf_iff_prefix.mp hsharp
          obtain ⟨u, hu⟩ := hpre
          exact ⟨u, hu.symm⟩
  have hkeys := foldl_blockDataStep_keys blk [] hline
    (fun p hp => absurd hp (List.not_mem_nil p))
  have hnone : dictGet (blockData blk) "publickey" = none :=
    dictGet_none_of_keys_hash _ hkeys
  refine ⟨?_, ?_, ?_⟩
  · intro p hp
    obtain ⟨u, hu⟩ := hkeys p hp
    unfold strStartsWith
    rw [hu]
    show (['#'] : List Char).isPrefixOf ('#' :: u) = true
    simp [List.isPrefixOf]
  · simp only [parse_peer_block, hnone]
  · exact ⟨_, rfl, rfl⟩

/-- C10 witness: an indented fully-commented block with a commented
`PublicKey` line yields no peer. -/
theorem C10_witness :
    (∀ p ∈ blockData ["  #[Peer]", "  # PublicKey = K"],
      strStartsWith p.1 "#" = true) ∧
    parse_peer_block ["  #[Peer]", "  # PublicKey = K"] none = none ∧
    ∃ q, parse_peer_block ["# PublicKey = K"] none = some q ∧
      q.public_key = "K" :=
  C10_comment_strip_order ["  #[Peer]", "  # PublicKey = K"] none (by decide)

end WgAdmin
